import Mathlib

/-!
Verification of the LRC lyric-file parsing core (`src/lib.rs` of `lrc-nom`).

The embedding translates the Rust source into executable Lean definitions:

* borrowed string slices (`&str`) become `Str := List Char`;
* the nom combinator pipeline `many1 (tuple (tag "[", take_until ":", tag ":",
  take_until "]", tag "]"))` becomes `scanTags`;
* `rust_decimal::Decimal` values become `Dec` (signed 96-bit mantissa with a
  decimal scale of at most 28), with `fromStrExact`, multiplication by the
  literal `1000`, and truncating conversion to `i64`;
* `str::parse::<i64>` becomes `parseI64` (sign, digits, 64-bit range check);
* the per-line classification `match` becomes `classify`, and the whole
  `parse` function over an iterator of lines becomes `parse` over `List Str`.

Machine integers are modelled as `Int`/`Nat` with the explicit range checks the
libraries perform; fallible operations return `Option`/`Except`.
-/

set_option maxRecDepth 10000

/-- Characters of a borrowed string slice (`&str`). -/
abbrev Str := List Char

/-- Character list of a string literal, used to state concrete instances. -/
def strL (s : String) : Str := s.toList

/-- Rust `str::trim`: drop whitespace from both ends.  `Char.isWhitespace`
covers the ASCII whitespace characters; Rust trims the full Unicode
White_Space class, so keys padded with exotic whitespace (e.g. U+00A0) are
outside the hypotheses of the trimming theorems below, which only ever
instantiate ASCII-whitespace-padded keys. -/
def trimChars (s : Str) : Str :=
  ((s.dropWhile Char.isWhitespace).reverse.dropWhile Char.isWhitespace).reverse

/-- Model of nom `take_until c` immediately followed by `tag c` for a
one-character pattern `c`: the characters strictly before the first occurrence
of `c`, paired with the input after that occurrence; fails when `c` never
occurs. -/
def takeUntilCh (c : Char) : Str → Option (Str × Str)
  | [] => none
  | x :: xs =>
    if x = c then some ([], xs)
    else (takeUntilCh c xs).map fun p => (x :: p.1, p.2)

/-- A successful `takeUntilCh` consumes at least the matched character. -/
theorem takeUntilCh_length (c : Char) :
    ∀ (s t r : Str), takeUntilCh c s = some (t, r) → r.length < s.length := by
  intro s
  induction s with
  | nil => intro t r h; simp [takeUntilCh] at h
  | cons x xs ih =>
    intro t r h
    unfold takeUntilCh at h
    by_cases hx : x = c
    · rw [if_pos hx] at h
      simp only [Option.some.injEq, Prod.mk.injEq] at h
      rw [← h.2]
      simp
    · rw [if_neg hx] at h
      cases hu : takeUntilCh c xs with
      | none => rw [hu] at h; simp at h
      | some p =>
        rw [hu] at h
        simp only [Option.map_some', Option.some.injEq, Prod.mk.injEq] at h
        have hr := ih p.1 p.2 (by rw [hu])
        rw [← h.2]
        exact Nat.lt_trans hr (Nat.lt_succ_self _)

/-- One bracket group of the nom tuple: the literal `[`, the key up to the
first `:`, that `:`, the value up to the first `]`, and that `]`.  The two
literal bracket components and the colon of the Rust 5-tuple are constants, so
the model keeps only the `(key, value)` pair, plus the unconsumed rest. -/
def scanSeg (s : Str) : Option ((Str × Str) × Str) :=
  match s with
  | [] => none
  | c :: rest =>
    if c = '[' then
      match takeUntilCh ':' rest with
      | none => none
      | some (key, r2) =>
        match takeUntilCh ']' r2 with
        | none => none
        | some (v, r3) => some ((key, v), r3)
    else none

/-- A successful segment match consumes at least the opening bracket. -/
theorem scanSeg_length :
    ∀ (s : Str) (seg : Str × Str) (r : Str), scanSeg s = some (seg, r) → r.length < s.length := by
  intro s seg r h
  cases s with
  | nil => simp [scanSeg] at h
  | cons c rest =>
    simp only [scanSeg] at h
    split at h
    · split at h
      · simp at h
      · rename_i key r2 heq1
        split at h
        · simp at h
        · rename_i v r3 heq2
          simp only [Option.some.injEq, Prod.mk.injEq] at h
          have l1 := takeUntilCh_length ':' rest key r2 heq1
          have l2 := takeUntilCh_length ']' r2 v r3 heq2
          rw [← h.2]
          calc r3.length < r2.length := l2
            _ < rest.length := l1
            _ < (c :: rest).length := Nat.lt_succ_self _
    · simp at h

/-- Fuel-bounded loop of nom `many0` over bracket segments.  The fuel is set to
the length of the input, which suffices because every matched segment consumes
at least one character (`scanSeg_length`). -/
def scanSegsFuel : Nat → Str → List (Str × Str) × Str
  | 0, s => ([], s)
  | n + 1, s =>
    match scanSeg s with
    | none => ([], s)
    | some (seg, rest) =>
      let p := scanSegsFuel n rest
      (seg :: p.1, p.2)

/-- The fuelled loop is stable once the fuel reaches the input length, so the
chosen fuel computes the same result as nom's unbounded repetition. -/
theorem scanSegsFuel_stable :
    ∀ (n m : Nat) (s : Str), s.length ≤ n → s.length ≤ m →
      scanSegsFuel n s = scanSegsFuel m s := by
  intro n
  induction n with
  | zero =>
    intro m s hn _
    have hs : s = [] := List.eq_nil_of_length_eq_zero (Nat.le_zero.mp hn)
    subst hs
    cases m with
    | zero => rfl
    | succ m' => simp [scanSegsFuel, scanSeg]
  | succ n' ih =>
    intro m s _ hm
    cases hseg : scanSeg s with
    | none =>
      cases m with
      | zero =>
        have hs : s = [] := List.eq_nil_of_length_eq_zero (Nat.le_zero.mp hm)
        subst hs; rfl
      | succ m' => simp [scanSegsFuel, hseg]
    | some p =>
      obtain ⟨seg, rest⟩ := p
      have hrest := scanSeg_length s seg rest hseg
      cases m with
      | zero =>
        have hs : s = [] := List.eq_nil_of_length_eq_zero (Nat.le_zero.mp hm)
        subst hs; simp [scanSeg] at hseg
      | succ m' =>
        have h1 : rest.length ≤ n' := by
          have := Nat.lt_of_lt_of_le hrest ‹s.length ≤ n' + 1›
          omega
        have h2 : rest.length ≤ m' := by
          have := Nat.lt_of_lt_of_le hrest hm
          omega
        simp only [scanSegsFuel, hseg]
        rw [ih m' rest h1 h2]

/-- nom `many1` of the bracket-segment tuple: at least one segment must match;
further segments are consumed greedily; the unmatched remainder of the line is
returned as the trailing text. -/
def scanTags (s : Str) : Option (List (Str × Str) × Str) :=
  match scanSeg s with
  | none => none
  | some (seg, rest) =>
    let p := scanSegsFuel rest.length rest
    some (seg :: p.1, p.2)

/-- Value of an ASCII digit. -/
def digitVal (c : Char) : Option Nat :=
  if c.isDigit then some (c.toNat - 48) else none

/-- Accumulating digit loop shared by the integer parsers. -/
def digitsToNatAux : Str → Nat → Option Nat
  | [], acc => some acc
  | c :: cs, acc =>
    match digitVal c with
    | none => none
    | some d => digitsToNatAux cs (acc * 10 + d)

/-- Numeric value of a nonempty, all-digit string; fails otherwise. -/
def digitsToNat : Str → Option Nat
  | [] => none
  | c :: cs => digitsToNatAux (c :: cs) 0

/-- Rust `str::parse::<i64>`: an optional sign followed by one or more ASCII
decimal digits, rejecting values outside the `i64` range. -/
def parseI64 (s : Str) : Option Int :=
  match s with
  | [] => none
  | c :: r =>
    if c = '+' then
      (digitsToNat r).bind fun n => if n ≤ 2 ^ 63 - 1 then some (n : Int) else none
    else if c = '-' then
      (digitsToNat r).bind fun n => if n ≤ 2 ^ 63 then some (-(n : Int)) else none
    else
      (digitsToNat (c :: r)).bind fun n => if n ≤ 2 ^ 63 - 1 then some (n : Int) else none

/-- rust_decimal `Decimal`: a signed mantissa of magnitude below `2 ^ 96`
together with a decimal scale of at most 28; the represented value is
`m / 10 ^ s`. -/
structure Dec where
  m : Int
  s : Nat
deriving DecidableEq

/-- Digit loop of rust_decimal `from_str_exact`: accepts decimal digits, one
optional decimal point, and underscore separators; rejects a mantissa of 96
bits or more (overflow) and more than 28 fractional digits (underflow, which
`from_str_exact` reports as an error instead of rounding).  The accumulator
carries the mantissa, the scale so far, whether the point was seen, and whether
any digit was seen. -/
def decDigitsExact : Str → Nat → Nat → Bool → Bool → Option (Nat × Nat)
  | [], m, s, _, sawDigit => if sawDigit then some (m, s) else none
  | c :: cs, m, s, afterPoint, sawDigit =>
    if c = '.' then
      if afterPoint then none else decDigitsExact cs m s true sawDigit
    else if c = '_' then decDigitsExact cs m s afterPoint sawDigit
    else
      match digitVal c with
      | none => none
      | some d =>
        if m * 10 + d < 2 ^ 96 then
          if afterPoint then
            if s < 28 then decDigitsExact cs (m * 10 + d) (s + 1) true true else none
          else decDigitsExact cs (m * 10 + d) s false true
        else none

/-- rust_decimal `Decimal::from_str_exact`: optional sign, then the digit loop
of `decDigitsExact`; at least one digit is required. -/
def fromStrExact (cs : Str) : Option Dec :=
  match cs with
  | [] => none
  | c :: r =>
    if c = '+' then (decDigitsExact r 0 0 false false).map fun p => ⟨(p.1 : Int), p.2⟩
    else if c = '-' then (decDigitsExact r 0 0 false false).map fun p => ⟨-(p.1 : Int), p.2⟩
    else (decDigitsExact (c :: r) 0 0 false false).map fun p => ⟨(p.1 : Int), p.2⟩

/-- Multiplication of a `Dec` by the literal `dec!(1000)` (mantissa 1000, scale
0): the mantissa is multiplied by 1000 exactly while the product stays below 96
bits.  When the product reaches 96 bits rust_decimal rescales — exact here for
a scale of 3 or more, since the product ends in three zero digits — and PANICS
when the scale cannot absorb the overflow (e.g. a 26-digit mantissa at scale
0).  The embedding is total, so that whole region is conservatively recorded
as failure; every theorem below that evaluates a decode stays inside the
sub-96-bit region where the model and the library agree exactly. -/
def mulDec1000 (d : Dec) : Option Dec :=
  if (d.m * 1000).natAbs < 2 ^ 96 then some ⟨d.m * 1000, d.s⟩ else none

/-- rust_decimal `to_i64`: drop the fractional part, truncating toward zero,
and require the result to fit in `i64`. -/
def decToI64 (d : Dec) : Option Int :=
  if -(2 ^ 63) ≤ d.m.tdiv ((10 : Int) ^ d.s) ∧ d.m.tdiv ((10 : Int) ^ d.s) ≤ 2 ^ 63 - 1 then
    some (d.m.tdiv ((10 : Int) ^ d.s))
  else none

/-- Rust `sec.replace(':', ".")`: every colon becomes a decimal point. -/
def replaceColonDot (s : Str) : Str :=
  s.map fun c => if c = ':' then '.' else c

/-- The `LrcMetadata` enum of the source, one constructor per recognised tag.
`offset` is the only numeric variant. -/
inductive LrcMetadata where
  | artist (s : Str)
  | album (s : Str)
  | title (s : Str)
  | lyricist (s : Str)
  | author (s : Str)
  | length (s : Str)
  | offset (n : Int)
  | application (s : Str)
  | appVersion (s : Str)
deriving DecidableEq

/-- The `LrcItem` enum of the source: a metadata value, or a lyric holding the
line's trailing text and ONE millisecond timestamp. -/
inductive LrcItem where
  | metadata (m : LrcMetadata)
  | lyric (text : Str) (timestamp : Int)
deriving DecidableEq

/-- The `LrcParseError` enum of the source, each variant carrying the 0-based
index the code assigned to the offending line. -/
inductive LrcParseError where
  | noTagInNonEmptyLine (n : Nat)
  | invalidTimestamp (n : Nat)
  | invalidOffset (n : Nat)
deriving DecidableEq

/-- Result of `parse`: `Result<Vec<LrcItem>, LrcParseError>`. -/
inductive LrcResult where
  | ok (items : List LrcItem)
  | err (e : LrcParseError)
deriving DecidableEq

/-- Items of a result, an empty list for errors. -/
def itemsOf : LrcResult → List LrcItem
  | .ok xs => xs
  | .err _ => []

/-- Rust `Result`-to-`Option` conversion performed by `Iterator::flatten` over
`Result` values: `Ok` contributes its item, `Err` contributes nothing. -/
def resultToOption : Except LrcParseError LrcItem → Option LrcItem
  | .ok it => some it
  | .error _ => none

/-- The closure mapped over the segments of a timestamp line, following the
source order of operations: parse the seconds as an exact decimal (colons first
normalised to points), multiply by 1000, parse the minutes as `i64`, convert
the millisecond product to `i64`, and build
`Lyric(text, minute * 60 * 1000 + millisec)`.  Every failure produces
`InvalidTimestamp` carrying the line index `i`. -/
def decodeSegR (minute sec text : Str) (i : Nat) : Except LrcParseError LrcItem :=
  match fromStrExact (replaceColonDot sec) with
  | none => .error (.invalidTimestamp i)
  | some d =>
    match mulDec1000 d with
    | none => .error (.invalidTimestamp i)
    | some ms =>
      match parseI64 minute with
      | none => .error (.invalidTimestamp i)
      | some m =>
        match decToI64 ms with
        | none => .error (.invalidTimestamp i)
        | some msi => .ok (.lyric text (m * 60 * 1000 + msi))

/-- Classification of a successfully scanned line, the body of the source's
`match tags[0]`: the `(_, "", _, "", _)` comment arm skips the line; a trimmed
key equal to a recognised short code builds the corresponding metadata from the
first segment's trimmed value; a trimmed key parsing as `i64` routes every
segment through `decodeSegR` and keeps only the `Ok` items (the source comment
says errors in parsing are ignored); anything else is silently dropped. -/
def classify (tags : List (Str × Str)) (text : Str) (i : Nat) : LrcResult :=
  match tags with
  | [] => .ok []
  | (attr, content) :: _ =>
    if attr = [] ∧ content = [] then .ok []
    else if trimChars attr = strL "ar" then .ok [.metadata (.artist (trimChars content))]
    else if trimChars attr = strL "al" then .ok [.metadata (.album (trimChars content))]
    else if trimChars attr = strL "ti" then .ok [.metadata (.title (trimChars content))]
    else if trimChars attr = strL "au" then .ok [.metadata (.lyricist (trimChars content))]
    else if trimChars attr = strL "length" then .ok [.metadata (.length (trimChars content))]
    else if trimChars attr = strL "by" then .ok [.metadata (.author (trimChars content))]
    else if trimChars attr = strL "offset" then
      match parseI64 (trimChars content) with
      | some v => .ok [.metadata (.offset v)]
      | none => .err (.invalidOffset i)
    else if trimChars attr = strL "re" then .ok [.metadata (.application (trimChars content))]
    else if trimChars attr = strL "ve" then .ok [.metadata (.appVersion (trimChars content))]
    else if (parseI64 (trimChars attr)).isSome then
      .ok (tags.filterMap fun p => resultToOption (decodeSegR p.1 p.2 text i))
    else .ok []

/-- One iteration of the source's line loop: scan the bracket groups; a scan
failure on the (non-empty) line is `NoTagInNonEmptyLine i`; otherwise classify.
The result lists the items the line contributes. -/
def parseLine (line : Str) (i : Nat) : LrcResult :=
  match scanTags line with
  | none => .err (.noTagInNonEmptyLine i)
  | some (tags, text) => classify tags text i

/-- The loop of `parse` over the already-filtered lines, threading the
enumeration index: the first error aborts the whole parse, successes
concatenate in input order. -/
def parseFrom : Nat → List Str → LrcResult
  | _, [] => .ok []
  | i, l :: ls =>
    match parseLine l i with
    | .err e => .err e
    | .ok items =>
      match parseFrom (i + 1) ls with
      | .err e => .err e
      | .ok rest => .ok (items ++ rest)

/-- The public `parse` function: drop empty lines (the source filters with
`!l.is_empty()` BEFORE enumerating, so indices count only non-empty lines),
then run the line loop from index 0. -/
def parse (lyricLines : List Str) : LrcResult :=
  parseFrom 0 (lyricLines.filter fun l => !l.isEmpty)

/-- A classification can only fail with an invalid-offset error carrying the
line's index. -/
theorem classify_err_shape (tags : List (Str × Str)) (text : Str) (i : Nat) (e : LrcParseError) :
    classify tags text i = .err e → e = .invalidOffset i := by
  intro h
  cases tags with
  | nil => simp [classify] at h
  | cons p tl =>
    obtain ⟨attr, content⟩ := p
    simp only [classify] at h
    by_cases h1 : attr = [] ∧ content = []
    · rw [if_pos h1] at h; exact LrcResult.noConfusion h
    · rw [if_neg h1] at h
      by_cases h2 : trimChars attr = strL "ar"
      · rw [if_pos h2] at h; exact LrcResult.noConfusion h
      · rw [if_neg h2] at h
        by_cases h3 : trimChars attr = strL "al"
        · rw [if_pos h3] at h; exact LrcResult.noConfusion h
        · rw [if_neg h3] at h
          by_cases h4 : trimChars attr = strL "ti"
          · rw [if_pos h4] at h; exact LrcResult.noConfusion h
          · rw [if_neg h4] at h
            by_cases h5 : trimChars attr = strL "au"
            · rw [if_pos h5] at h; exact LrcResult.noConfusion h
            · rw [if_neg h5] at h
              by_cases h6 : trimChars attr = strL "length"
              · rw [if_pos h6] at h; exact LrcResult.noConfusion h
              · rw [if_neg h6] at h
                by_cases h7 : trimChars attr = strL "by"
                · rw [if_pos h7] at h; exact LrcResult.noConfusion h
                · rw [if_neg h7] at h
                  by_cases h8 : trimChars attr = strL "offset"
                  · rw [if_pos h8] at h
                    cases hp : parseI64 (trimChars content) with
                    | none =>
                      rw [hp] at h
                      injection h with h'
                      exact h'.symm
                    | some v =>
                      rw [hp] at h
                      exact LrcResult.noConfusion h
                  · rw [if_neg h8] at h
                    by_cases h9 : trimChars attr = strL "re"
                    · rw [if_pos h9] at h; exact LrcResult.noConfusion h
                    · rw [if_neg h9] at h
                      by_cases h10 : trimChars attr = strL "ve"
                      · rw [if_pos h10] at h; exact LrcResult.noConfusion h
                      · rw [if_neg h10] at h
                        by_cases h11 : (parseI64 (trimChars attr)).isSome = true
                        · rw [if_pos h11] at h; exact LrcResult.noConfusion h
                        · rw [if_neg h11] at h; exact LrcResult.noConfusion h

/-- A line parse can only fail with the no-tag or invalid-offset error, both
carrying the line's index; in particular the invalid-timestamp error is never
returned by a line. -/
theorem parseLine_err_shape (line : Str) (i : Nat) (e : LrcParseError) :
    parseLine line i = .err e →
    e = .noTagInNonEmptyLine i ∨ e = .invalidOffset i := by
  intro h
  unfold parseLine at h
  cases hs : scanTags line with
  | none =>
    rw [hs] at h
    injection h with h'
    exact Or.inl h'.symm
  | some p =>
    rw [hs] at h
    obtain ⟨tags, text⟩ := p
    exact Or.inr (classify_err_shape tags text i e h)

/-- Document-level errors are line errors of one of the two returned kinds. -/
theorem parseFrom_err_shape :
    ∀ (ls : List Str) (i : Nat) (e : LrcParseError), parseFrom i ls = .err e →
      ∃ n, e = .noTagInNonEmptyLine n ∨ e = .invalidOffset n := by
  intro ls
  induction ls with
  | nil => intro i e h; simp [parseFrom] at h
  | cons l tl ih =>
    intro i e h
    simp only [parseFrom] at h
    cases hp : parseLine l i with
    | err e' =>
      rw [hp] at h
      injection h with h'
      subst h'
      exact ⟨i, parseLine_err_shape l i e' hp⟩
    | ok items =>
      rw [hp] at h
      cases hq : parseFrom (i + 1) tl with
      | err e2 =>
        rw [hq] at h
        injection h with h'
        subst h'
        exact ih (i + 1) e2 hq
      | ok rest => rw [hq] at h; simp at h

/-- When every line of a prefix parses successfully (at any index) and the next
line fails, the loop returns exactly that failure, the index having advanced by
the length of the prefix. -/
theorem parseFrom_append_err :
    ∀ (pre : List Str) (i : Nat) (l : Str) (rest : List Str) (e : LrcParseError),
      (∀ p ∈ pre, ∀ j, ∃ xs, parseLine p j = .ok xs) →
      parseLine l (i + pre.length) = .err e →
      parseFrom i (pre ++ l :: rest) = .err e := by
  intro pre
  induction pre with
  | nil =>
    intro i l rest e _ hl
    simp only [List.length_nil, Nat.add_zero] at hl
    simp [parseFrom, hl]
  | cons p tl ih =>
    intro i l rest e hok hl
    obtain ⟨xs, hxs⟩ := hok p (List.mem_cons_self p tl) i
    have hl' : parseLine l ((i + 1) + tl.length) = .err e := by
      have harith : (i + 1) + tl.length = i + (p :: tl).length := by
        simp [List.length_cons]; omega
      rw [harith]
      exact hl
    have hrec := ih (i + 1) l rest e (fun q hq j => hok q (List.mem_cons_of_mem p hq) j) hl'
    rw [List.cons_append]
    simp only [parseFrom, hxs, List.append_eq, hrec]

/-- A segment decode can only succeed with a lyric item holding the trailing
text it was given. -/
theorem decodeSegR_ok_shape (minute sec text : Str) (i : Nat) (it : LrcItem) :
    resultToOption (decodeSegR minute sec text i) = some it →
    ∃ v, it = .lyric text v := by
  intro h
  unfold decodeSegR at h
  split at h
  · simp [resultToOption] at h
  · split at h
    · simp [resultToOption] at h
    · split at h
      · simp [resultToOption] at h
      · split at h
        · simp [resultToOption] at h
        · simp only [resultToOption, Option.some.injEq] at h
          exact ⟨_, h.symm⟩

/-- C1 (amended): a line with two timestamp segments sharing one trailing text
produces TWO `Lyric` items, one per segment, each holding that shared text and
a single millisecond timestamp, in segment order—`Lyric` has no timestamp
list. -/
theorem C1_two_lyric_items :
    parse [strL "[00:12.00][00:45.00]Shared"] =
      .ok [.lyric (strL "Shared") 12000, .lyric (strL "Shared") 45000] := by
  decide

/-- C1 counterexample: on `[00:12.00][00:45.00]Shared` parsing produces two
items, not the single Lyric item the claim describes. -/
theorem C1_not_single_item :
    (itemsOf (parse [strL "[00:12.00][00:45.00]Shared"])).length = 2 ∧
      (itemsOf (parse [strL "[00:12.00][00:45.00]Shared"])).length ≠ 1 := by
  decide

/-- C2 (amended): timestamp decode failures never surface.  Every parse result
is either a success or one of the two errors `NoTagInNonEmptyLine` and
`InvalidOffset`; a segment whose decode fails is silently dropped while the
rest of the line's segments still produce items. -/
theorem C2_error_taxonomy :
    (∀ lines : List Str,
        (∃ xs, parse lines = .ok xs) ∨
          ∃ n, parse lines = .err (.noTagInNonEmptyLine n) ∨
            parse lines = .err (.invalidOffset n)) ∧
      parse [strL "[0:abc][0:7.5]x"] = .ok [.lyric (strL "x") 7500] := by
  constructor
  · intro lines
    cases hp : parse lines with
    | ok xs => exact Or.inl ⟨xs, rfl⟩
    | err e =>
      have hp' : parseFrom 0 (lines.filter fun l => !l.isEmpty) = .err e := hp
      obtain ⟨n, hn⟩ := parseFrom_err_shape _ 0 e hp'
      refine Or.inr ⟨n, ?_⟩
      cases hn with
      | inl h => exact Or.inl (by rw [h])
      | inr h => exact Or.inr (by rw [h])
  · decide

/-- C2 counterexample: the line `[0:abc]x` has a timestamp segment whose
seconds component fails to parse, yet parse returns success with no items
instead of the `InvalidTimestamp` error the claim requires. -/
theorem C2_timestamp_error_swallowed :
    parse [strL "[0:abc]x"] = .ok [] ∧
      parse [strL "[0:abc]x"] ≠ .err (.invalidTimestamp 0) := by
  decide

/-- C3 (amended): when every non-empty line of the prefix parses successfully
and the next line (itself non-empty) fails, `parse` returns exactly that
line's error — whose embedded index is the count of NON-EMPTY lines before it,
not the raw position — and returns no items from any line. -/
theorem C3_first_error_index :
    ∀ (pre : List Str) (l : Str) (rest : List Str) (e : LrcParseError),
      (∀ p ∈ pre, p ≠ [] → ∀ j, ∃ xs, parseLine p j = .ok xs) →
      l ≠ [] →
      parseLine l ((pre.filter fun q => !q.isEmpty).length) = .err e →
      parse (pre ++ l :: rest) = .err e := by
  intro pre l rest e hok hl hfail
  unfold parse
  have hlb : (!l.isEmpty) = true := by
    cases l with
    | nil => exact absurd rfl hl
    | cons c cs => rfl
  have hfil : (pre ++ l :: rest).filter (fun q => !q.isEmpty) =
      (pre.filter fun q => !q.isEmpty) ++ l :: (rest.filter fun q => !q.isEmpty) := by
    rw [List.filter_append, List.filter_cons]
    simp [hlb]
  rw [hfil]
  apply parseFrom_append_err
  · intro p hp j
    have hp' := List.mem_filter.mp hp
    have hpe : p ≠ [] := by
      intro hnil
      rw [hnil] at hp'
      simp at hp'
    exact hok p hp'.1 hpe j
  · simpa using hfail

/-- C3 witness: a blank line, then a failing line, then a further line; the
error carries index 0 (the failing line is the first NON-EMPTY line) and no
items of the line after it are returned. -/
theorem C3_first_error_index_instance :
    parse [strL "", strL "plain", strL "[ti:a]"] = .err (.noTagInNonEmptyLine 0) :=
  C3_first_error_index [strL ""] (strL "plain") [strL "[ti:a]"] (.noTagInNonEmptyLine 0)
    (by
      intro p hp hne j
      simp only [List.mem_singleton] at hp
      subst hp
      exact absurd rfl hne)
    (by decide)
    (by decide)

/-- C3 counterexample: with lines `["", "plain text"]` the first line producing
an error is line 1 when counting every line as the claim requires, but the
returned error references 0 because empty lines are filtered out before
enumeration. -/
theorem C3_blank_lines_not_counted :
    parse [strL "", strL "plain text"] = .err (.noTagInNonEmptyLine 0) ∧
      parse [strL "", strL "plain text"] ≠ .err (.noTagInNonEmptyLine 1) := by
  decide

/-- C4 (amended): only lines that are exactly empty are skipped before tag
scanning; a non-empty line made only of whitespace reaches the scanner and
fails with `NoTagInNonEmptyLine`. -/
theorem C4_blank_line_handling :
    (∀ ls : List Str, parse ([] :: ls) = parse ls) ∧
      ∀ l : Str, l ≠ [] → (∀ c ∈ l, c.isWhitespace = true) →
        parse [l] = .err (.noTagInNonEmptyLine 0) := by
  constructor
  · intro ls
    rfl
  · intro l hne hws
    cases l with
    | nil => exact absurd rfl hne
    | cons c cs =>
      have hc : c.isWhitespace = true := hws c (List.mem_cons_self c cs)
      have hcb : ¬(c = '[') := by
        intro hcc
        rw [hcc] at hc
        exact absurd hc (by decide)
      have hseg : scanSeg (c :: cs) = none := by
        simp only [scanSeg]
        rw [if_neg hcb]
      have htags : scanTags (c :: cs) = none := by
        simp only [scanTags, hseg]
      have hline : parseLine (c :: cs) 0 = .err (.noTagInNonEmptyLine 0) := by
        unfold parseLine
        rw [htags]
      have hfil : List.filter (fun q => !q.isEmpty) [c :: cs] = [c :: cs] := rfl
      unfold parse
      rw [hfil]
      simp only [parseFrom, hline]

/-- C4 witness: a two-space line is non-empty whitespace and fails. -/
theorem C4_blank_line_handling_instance :
    parse [strL "  "] = .err (.noTagInNonEmptyLine 0) :=
  C4_blank_line_handling.2 (strL "  ") (by decide) (by decide)

/-- C4 counterexample: a single-space line is whitespace-only, yet parsing
returns an error instead of yielding no item and no error. -/
theorem C4_whitespace_line_fails :
    parse [strL " "] = .err (.noTagInNonEmptyLine 0) ∧ parse [strL " "] ≠ .ok [] := by
  decide

/-- C5 (amended): a line whose first bracket segment has an empty key and an
empty value is skipped entirely — no item of any kind and no error; the source
has no Comment metadata variant. -/
theorem C5_empty_key_value_skipped :
    ∀ (line : Str) (i : Nat) (segs : List (Str × Str)) (rest : Str),
      scanTags line = some (([], []) :: segs, rest) →
      parseLine line i = .ok [] := by
  intro line i segs rest hscan
  unfold parseLine
  rw [hscan]
  simp [classify]

/-- C5 witness: `[:] trailing` is skipped; the trailing text is discarded, not
turned into a comment item. -/
theorem C5_empty_key_value_skipped_instance :
    parseLine (strL "[:] trailing") 0 = .ok [] :=
  C5_empty_key_value_skipped (strL "[:] trailing") 0 [] (strL " trailing") (by decide)

/-- C5 counterexample: neither `[:]` nor `[:] trailing` yields any item, so no
`Metadata::Comment` value is produced. -/
theorem C5_no_comment_item :
    parse [strL "[:]"] = .ok [] ∧ parse [strL "[:] trailing"] = .ok [] := by
  decide

/-- C6 (amended): a line whose first segment's key trims to a number sign is
silently dropped like any other unrecognized key — the source's recognized
short codes do not include it and no Comment variant exists. -/
theorem C6_hash_key_ignored :
    ∀ (line : Str) (i : Nat) (attr content : Str) (segs : List (Str × Str)) (rest : Str),
      scanTags line = some ((attr, content) :: segs, rest) →
      trimChars attr = strL "#" →
      parseLine line i = .ok [] := by
  intro line i attr content segs rest hscan htrim
  have hne : ¬(attr = [] ∧ content = []) := by
    rintro ⟨ha, -⟩
    rw [ha] at htrim
    exact absurd htrim (by decide)
  unfold parseLine
  rw [hscan]
  simp only [classify]
  rw [if_neg hne, htrim]
  rw [if_neg (by decide : ¬(strL "#" = strL "ar"))]
  rw [if_neg (by decide : ¬(strL "#" = strL "al"))]
  rw [if_neg (by decide : ¬(strL "#" = strL "ti"))]
  rw [if_neg (by decide : ¬(strL "#" = strL "au"))]
  rw [if_neg (by decide : ¬(strL "#" = strL "length"))]
  rw [if_neg (by decide : ¬(strL "#" = strL "by"))]
  rw [if_neg (by decide : ¬(strL "#" = strL "offset"))]
  rw [if_neg (by decide : ¬(strL "#" = strL "re"))]
  rw [if_neg (by decide : ¬(strL "#" = strL "ve"))]
  rw [if_neg (by decide : ¬((parseI64 (strL "#")).isSome = true))]

/-- C6 witness: a concrete hash-keyed line contributes nothing. -/
theorem C6_hash_key_ignored_instance :
    parseLine (strL "[#:hello]") 0 = .ok [] :=
  C6_hash_key_ignored (strL "[#:hello]") 0 (strL "#") (strL "hello") [] [] (by decide) (by decide)

/-- C6 counterexample: the hash-keyed line yields no item at all, refuting the
claimed Comment item built from the trimmed value. -/
theorem C6_hash_yields_nothing :
    parse [strL "[#: hello]"] = .ok [] ∧ (itemsOf (parse [strL "[#: hello]"])).length = 0 := by
  decide

/-- C7: `[00:12.34]Hello` yields exactly one Lyric item with text `Hello` and
timestamp 12340; in general, whenever a segment decodes, its timestamp is
minutes times 60000 plus the truncated integer value of the seconds decimal
times 1000. -/
theorem C7_timestamp_formula :
    parse [strL "[00:12.34]Hello"] = .ok [.lyric (strL "Hello") 12340] ∧
      ∀ (minute sec txt : Str) (i : Nat) (m : Int) (d : Dec) (it : LrcItem),
        parseI64 minute = some m →
        fromStrExact (replaceColonDot sec) = some d →
        decodeSegR minute sec txt i = .ok it →
        it = .lyric txt (m * 60000 + (d.m * 1000).tdiv ((10 : Int) ^ d.s)) := by
  constructor
  · decide
  · intro minute sec txt i m d it hm hd hdec
    by_cases hb : (d.m * 1000).natAbs < 2 ^ 96
    · have hmul : mulDec1000 d = some ⟨d.m * 1000, d.s⟩ := by
        simp only [mulDec1000]
        rw [if_pos hb]
      by_cases hr : -(2 ^ 63) ≤ (d.m * 1000).tdiv ((10 : Int) ^ d.s) ∧
          (d.m * 1000).tdiv ((10 : Int) ^ d.s) ≤ 2 ^ 63 - 1
      · have hto : decToI64 ⟨d.m * 1000, d.s⟩ = some ((d.m * 1000).tdiv ((10 : Int) ^ d.s)) := by
          simp only [decToI64]
          rw [if_pos hr]
        simp only [decodeSegR, hd, hmul, hm, hto] at hdec
        injection hdec with h'
        rw [← h']
        have harith : m * 60 * 1000 = m * 60000 := by ring
        rw [harith]
      · have hto : decToI64 ⟨d.m * 1000, d.s⟩ = none := by
          simp only [decToI64]
          rw [if_neg hr]
        simp only [decodeSegR, hd, hmul, hm, hto] at hdec
        exact Except.noConfusion hdec
    · have hmul : mulDec1000 d = none := by
        simp only [mulDec1000]
        rw [if_neg hb]
      simp only [decodeSegR, hd, hmul] at hdec
      exact Except.noConfusion hdec

/-- C7 witness: the general formula instantiated at the segment `00`/`12.34`
of the concrete line. -/
theorem C7_timestamp_formula_instance :
    LrcItem.lyric (strL "Hello") 12340 =
      .lyric (strL "Hello")
        ((0 : Int) * 60000 + ((1234 : Int) * 1000).tdiv ((10 : Int) ^ (2 : Nat))) :=
  C7_timestamp_formula.2 (strL "00") (strL "12.34") (strL "Hello") 0 0 ⟨1234, 2⟩
    (.lyric (strL "Hello") 12340) (by decide) (by decide) (by rfl)

/-- C8 (amended): an `offset` first segment yields `Offset` of the trimmed
value parsed as a signed integer, and a parse failure yields `InvalidOffset`
carrying the index the loop assigned to the line — the 0-based position among
NON-EMPTY lines, as the concrete two-line input shows. -/
theorem C8_offset_parsing :
    (∀ (line : Str) (i : Nat) (attr content : Str) (segs : List (Str × Str)) (rest : Str),
        scanTags line = some ((attr, content) :: segs, rest) →
        trimChars attr = strL "offset" →
        (∀ v, parseI64 (trimChars content) = some v →
            parseLine line i = .ok [.metadata (.offset v)]) ∧
          (parseI64 (trimChars content) = none →
            parseLine line i = .err (.invalidOffset i))) ∧
      parse [strL "", strL "[offset:abc]"] = .err (.invalidOffset 0) := by
  constructor
  · intro line i attr content segs rest hscan htrim
    have hne : ¬(attr = [] ∧ content = []) := by
      rintro ⟨ha, -⟩
      rw [ha] at htrim
      exact absurd htrim (by decide)
    have hbase : ∀ r : LrcResult,
        (match parseI64 (trimChars content) with
          | some v => LrcResult.ok [.metadata (.offset v)]
          | none => LrcResult.err (.invalidOffset i)) = r →
        parseLine line i = r := by
      intro r hr
      unfold parseLine
      rw [hscan]
      simp only [classify]
      rw [if_neg hne, htrim]
      rw [if_neg (by decide : ¬(strL "offset" = strL "ar"))]
      rw [if_neg (by decide : ¬(strL "offset" = strL "al"))]
      rw [if_neg (by decide : ¬(strL "offset" = strL "ti"))]
      rw [if_neg (by decide : ¬(strL "offset" = strL "au"))]
      rw [if_neg (by decide : ¬(strL "offset" = strL "length"))]
      rw [if_neg (by decide : ¬(strL "offset" = strL "by"))]
      rw [if_pos rfl]
      exact hr
    constructor
    · intro v hv
      exact hbase _ (by rw [hv])
    · intro hv
      exact hbase _ (by rw [hv])
  · decide

/-- C8 witness: the concrete negative offset from the spec's example. -/
theorem C8_offset_parsing_instance :
    parseLine (strL "[offset:-250]") 0 = .ok [.metadata (.offset (-250))] :=
  (C8_offset_parsing.1 (strL "[offset:-250]") 0 (strL "offset") (strL "-250") [] []
    (by decide) (by decide)).1 (-250) (by decide)

/-- C8 counterexample: after one empty line, `[offset:abc]` sits at raw line
number 1, yet the error carries 0 because empty lines are filtered out before
enumeration. -/
theorem C8_offset_index_filtered :
    parse [strL "", strL "[offset:abc]"] = .err (.invalidOffset 0) ∧
      parse [strL "", strL "[offset:abc]"] ≠ .err (.invalidOffset 1) := by
  decide

/-- A successful tag scan returns at least one segment: nom `many1` demands
one match before the greedy repetition. -/
theorem scanTags_nonempty :
    ∀ (line : Str) (tags : List (Str × Str)) (rest : Str),
      scanTags line = some (tags, rest) → tags ≠ [] := by
  intro line tags rest h
  unfold scanTags at h
  cases hs : scanSeg line with
  | none => rw [hs] at h; exact Option.noConfusion h
  | some p =>
    rw [hs] at h
    obtain ⟨seg, r⟩ := p
    simp only [Option.some.injEq, Prod.mk.injEq] at h
    rw [← h.1]
    exact List.cons_ne_nil seg _

/-- C9 (amended): a successful tag scan returns at least one segment, so the
classifier's unchecked access to the first segment is always in bounds; parse
is NOT panic-free, however: the second conjunct shows the millisecond product
of the seconds `100000000000000000000000000` (mantissa `10 ^ 26` at scale 0)
cannot be represented in 96 bits, and with scale 0 rust_decimal's
multiplication by `dec!(1000)` has no room to rescale, so it panics there
instead of returning an error. -/
theorem C9_inbounds_and_overflow :
    (∀ (line : Str) (tags : List (Str × Str)) (rest : Str),
        scanTags line = some (tags, rest) → tags ≠ []) ∧
      mulDec1000 ⟨(10 : Int) ^ 26, 0⟩ = none := by
  exact ⟨scanTags_nonempty, by decide⟩

/-- C9 witness: the in-bounds conjunct applied to the scan of a concrete
timestamp line. -/
theorem C9_inbounds_and_overflow_instance :
    ([(strL "00", strL "12.34")] : List (Str × Str)) ≠ [] :=
  C9_inbounds_and_overflow.1 (strL "[00:12.34]Hello") [(strL "00", strL "12.34")] (strL "Hello")
    (by decide)

/-- C9 counterexample to the no-panic conjunct: on the concrete line the scan
succeeds, the key `0` routes the line into the timestamp branch, the seconds
parse exactly to the scale-0 mantissa `10 ^ 26`, and the product with 1000
(`10 ^ 29`) exceeds the 96-bit capacity — the spot where rust_decimal's
multiplication panics (the total embedding records the unrepresentable product
as `none`), so the program aborts instead of returning. -/
theorem C9_panic_input_reached :
    scanTags (strL "[0:100000000000000000000000000]x") =
        some ([(strL "0", strL "100000000000000000000000000")], strL "x") ∧
      (parseI64 (trimChars (strL "0"))).isSome = true ∧
      fromStrExact (replaceColonDot (strL "100000000000000000000000000")) =
        some ⟨(10 : Int) ^ 26, 0⟩ ∧
      ¬(((10 : Int) ^ 26 * 1000).natAbs < 2 ^ 96) := by
  decide

/-- C10: every Lyric item a line produces carries exactly the line's trailing
remainder after the last matched bracket group as its text, so Lyric items of
one line never differ in their text. -/
theorem C10_lyric_text_uniform :
    ∀ (line : Str) (i : Nat) (tags : List (Str × Str)) (rest txt : Str) (ts : Int),
      scanTags line = some (tags, rest) →
      LrcItem.lyric txt ts ∈ itemsOf (parseLine line i) →
      txt = rest := by
  intro line i tags rest txt ts hscan hmem
  unfold parseLine at hmem
  rw [hscan] at hmem
  cases tags with
  | nil => simp [classify, itemsOf] at hmem
  | cons p tl =>
    obtain ⟨attr, content⟩ := p
    simp only [classify] at hmem
    by_cases h1 : attr = [] ∧ content = []
    · rw [if_pos h1] at hmem; simp [itemsOf] at hmem
    · rw [if_neg h1] at hmem
      by_cases h2 : trimChars attr = strL "ar"
      · rw [if_pos h2] at hmem; simp [itemsOf] at hmem
      · rw [if_neg h2] at hmem
        by_cases h3 : trimChars attr = strL "al"
        · rw [if_pos h3] at hmem; simp [itemsOf] at hmem
        · rw [if_neg h3] at hmem
          by_cases h4 : trimChars attr = strL "ti"
          · rw [if_pos h4] at hmem; simp [itemsOf] at hmem
          · rw [if_neg h4] at hmem
            by_cases h5 : trimChars attr = strL "au"
            · rw [if_pos h5] at hmem; simp [itemsOf] at hmem
            · rw [if_neg h5] at hmem
              by_cases h6 : trimChars attr = strL "length"
              · rw [if_pos h6] at hmem; simp [itemsOf] at hmem
              · rw [if_neg h6] at hmem
                by_cases h7 : trimChars attr = strL "by"
                · rw [if_pos h7] at hmem; simp [itemsOf] at hmem
                · rw [if_neg h7] at hmem
                  by_cases h8 : trimChars attr = strL "offset"
                  · rw [if_pos h8] at hmem
                    cases hp : parseI64 (trimChars content) with
                    | none => rw [hp] at hmem; simp [itemsOf] at hmem
                    | some v => rw [hp] at hmem; simp [itemsOf] at hmem
                  · rw [if_neg h8] at hmem
                    by_cases h9 : trimChars attr = strL "re"
                    · rw [if_pos h9] at hmem; simp [itemsOf] at hmem
                    · rw [if_neg h9] at hmem
                      by_cases h10 : trimChars attr = strL "ve"
                      · rw [if_pos h10] at hmem; simp [itemsOf] at hmem
                      · rw [if_neg h10] at hmem
                        by_cases h11 : (parseI64 (trimChars attr)).isSome = true
                        · rw [if_pos h11] at hmem
                          simp only [itemsOf, List.mem_filterMap] at hmem
                          obtain ⟨a, ha, hdec⟩ := hmem
                          obtain ⟨v, hv⟩ :=
                            decodeSegR_ok_shape a.1 a.2 rest i (.lyric txt ts) hdec
                          simp only [LrcItem.lyric.injEq] at hv
                          exact hv.1
                        · rw [if_neg h11] at hmem; simp [itemsOf] at hmem

/-- C10 witness: the shared trailing text of the two-timestamp line is the
text of its lyric item. -/
theorem C10_lyric_text_uniform_instance :
    strL "Shared" = strL "Shared" :=
  C10_lyric_text_uniform (strL "[00:12.00][00:45.00]Shared") 0
    [(strL "00", strL "12.00"), (strL "00", strL "45.00")] (strL "Shared") (strL "Shared") 12000
    (by decide) (by decide)
